import Mathlib

/-!
A verification development for the pbnj metadata-extraction core.

The Python sources `src/pbnj/core/parser.py` (class `PBIXParser`) and
`src/pbnj/docs/generator.py` (class `DocumentationGenerator`) are shallowly
embedded below: Python values flowing through the pipeline (str / int / bool /
None / list / dict) become the inductive `J`; the upstream pbixray collaborator
becomes a record of `Except`-valued accessors (an accessor that raises is an
`.error`); the parser instance's mutable fields become an explicit state record
threaded through `extract_metadata`; `json.dump(indent=2, ensure_ascii=False)`
and `json.load` become the verified codec `dumps` / `loads`.
-/

namespace Pbnj

/-! ### Python values

`J` models the JSON-compatible Python values the pipeline builds: strings,
ints, bools, None, lists, and dicts (as association lists in insertion
order, which Python dicts preserve). -/

inductive J where
  | str (s : String)
  | num (i : Int)
  | bool (b : Bool)
  | null
  | arr (xs : List J)
  | obj (kvs : List (String × J))

/-! ### Character-list utilities

Models of the Python string primitives the core uses: `str.split(sep)` for a
non-empty separator, `str.strip()`, and the substring test `needle in hay`.
The separator of a split is passed as a head character plus tail
(`c0 :: tl`), which makes non-emptiness structural. -/

/-- Model of Python's default `str.strip()` whitespace set (ASCII part). -/
def isPySpace (c : Char) : Bool :=
  c == ' ' || c == '\t' || c == '\n' || c == '\r' || c == '\x0b' || c == '\x0c'

/-- Model of `str.strip()`: drop leading and trailing whitespace. -/
def pystrip (l : List Char) : List Char :=
  ((l.dropWhile isPySpace).reverse.dropWhile isPySpace).reverse

/-- Locate the first occurrence of the separator `c0 :: tl` in `s`: returns
the text before it and the text after it, or `none` if absent. -/
def findSep (c0 : Char) (tl : List Char) : List Char → Option (List Char × List Char)
  | [] => none
  | a :: rest =>
      if List.isPrefixOf (c0 :: tl) (a :: rest) then
        some ([], (a :: rest).drop (c0 :: tl).length)
      else
        match findSep c0 tl rest with
        | some (pre, post) => some (a :: pre, post)
        | none => none

theorem findSep_post_lt {c0 : Char} {tl : List Char} :
    ∀ {s pre post : List Char}, findSep c0 tl s = some (pre, post) →
      post.length < s.length := by
  intro s
  induction s with
  | nil => intro pre post h; simp [findSep] at h
  | cons a rest ih =>
      intro pre post h
      rw [findSep] at h
      split at h
      · simp only [Option.some.injEq, Prod.mk.injEq] at h
        obtain ⟨-, rfl⟩ := h
        simp only [List.length_cons, List.length_drop]
        omega
      · split at h
        · rename_i pre' post' hfind
          simp only [Option.some.injEq, Prod.mk.injEq] at h
          obtain ⟨-, rfl⟩ := h
          have := ih hfind
          simp only [List.length_cons]
          omega
        · exact absurd h (by simp)

/-- The recursion of Python's `s.split(sep)`, fuelled so it is structural:
the fuel only has to dominate the number of separator occurrences, which
`s.length` always does. -/
def pysplitF (c0 : Char) (tl : List Char) : Nat → List Char → List (List Char)
  | 0, s => [s]
  | fuel + 1, s =>
      match findSep c0 tl s with
      | none => [s]
      | some (pre, post) => pre :: pysplitF c0 tl fuel post

/-- Model of Python's `s.split(sep)` for the non-empty separator `c0 :: tl`:
greedy left-to-right splitting at each non-overlapping occurrence. -/
def pysplit (c0 : Char) (tl : List Char) (s : List Char) : List (List Char) :=
  pysplitF c0 tl s.length s

theorem pysplitF_stable (c0 : Char) (tl : List Char) :
    ∀ (f1 f2 : Nat) (s : List Char), s.length ≤ f1 → s.length ≤ f2 →
      pysplitF c0 tl f1 s = pysplitF c0 tl f2 s := by
  intro f1
  induction f1 with
  | zero =>
      intro f2 s h1 h2
      have hs : s = [] := List.eq_nil_of_length_eq_zero (by omega)
      subst hs
      cases f2 with
      | zero => rfl
      | succ g => simp [pysplitF, findSep]
  | succ f ih =>
      intro f2 s h1 h2
      cases f2 with
      | zero =>
          have hs : s = [] := List.eq_nil_of_length_eq_zero (by omega)
          subst hs
          simp [pysplitF, findSep]
      | succ g =>
          simp only [pysplitF]
          cases hfind : findSep c0 tl s with
          | none => rfl
          | some p =>
              obtain ⟨pre, post⟩ := p
              have hlt := findSep_post_lt hfind
              simp only [ih g post (by omega) (by omega)]

/-- The one-step unfolding of `pysplit`, recovering the plain recursion of
the Python loop. -/
theorem pysplit_unfold (c0 : Char) (tl : List Char) (s : List Char) :
    pysplit c0 tl s
      = match findSep c0 tl s with
        | none => [s]
        | some (pre, post) => pre :: pysplit c0 tl post := by
  rw [pysplit]
  cases hn : s.length with
  | zero =>
      have hs : s = [] := List.eq_nil_of_length_eq_zero hn
      subst hs
      simp [pysplitF, findSep]
  | succ n =>
      simp only [pysplitF]
      cases hfind : findSep c0 tl s with
      | none => rfl
      | some p =>
          obtain ⟨pre, post⟩ := p
          have hlt := findSep_post_lt hfind
          simp only [pysplit, pysplitF_stable c0 tl n post.length post (by omega) (by omega)]

/-- The fuelled recursion of Python's `s.count(sep)`. -/
def countOccF (c0 : Char) (tl : List Char) : Nat → List Char → Nat
  | 0, _ => 0
  | fuel + 1, s =>
      match findSep c0 tl s with
      | none => 0
      | some (_, post) => 1 + countOccF c0 tl fuel post

/-- Model of Python's `s.count(sep)`: the number of non-overlapping
occurrences of the separator, counted greedily left to right. -/
def countOcc (c0 : Char) (tl : List Char) (s : List Char) : Nat :=
  countOccF c0 tl s.length s

theorem countOccF_stable (c0 : Char) (tl : List Char) :
    ∀ (f1 f2 : Nat) (s : List Char), s.length ≤ f1 → s.length ≤ f2 →
      countOccF c0 tl f1 s = countOccF c0 tl f2 s := by
  intro f1
  induction f1 with
  | zero =>
      intro f2 s h1 h2
      have hs : s = [] := List.eq_nil_of_length_eq_zero (by omega)
      subst hs
      cases f2 with
      | zero => rfl
      | succ g => simp [countOccF, findSep]
  | succ f ih =>
      intro f2 s h1 h2
      cases f2 with
      | zero =>
          have hs : s = [] := List.eq_nil_of_length_eq_zero (by omega)
          subst hs
          simp [countOccF, findSep]
      | succ g =>
          simp only [countOccF]
          cases hfind : findSep c0 tl s with
          | none => rfl
          | some p =>
              obtain ⟨pre, post⟩ := p
              have hlt := findSep_post_lt hfind
              simp only [ih g post (by omega) (by omega)]

/-- The one-step unfolding of `countOcc`. -/
theorem countOcc_unfold (c0 : Char) (tl : List Char) (s : List Char) :
    countOcc c0 tl s
      = match findSep c0 tl s with
        | none => 0
        | some (_, post) => 1 + countOcc c0 tl post := by
  rw [countOcc]
  cases hn : s.length with
  | zero =>
      have hs : s = [] := List.eq_nil_of_length_eq_zero hn
      subst hs
      simp [countOccF, findSep]
  | succ n =>
      simp only [countOccF]
      cases hfind : findSep c0 tl s with
      | none => rfl
      | some p =>
          obtain ⟨pre, post⟩ := p
          have hlt := findSep_post_lt hfind
          simp only [countOcc, countOccF_stable c0 tl n post.length post (by omega) (by omega)]

/-- Splitting produces one more segment than there are separator occurrences. -/
theorem pysplit_length (c0 : Char) (tl : List Char) :
    ∀ s : List Char, (pysplit c0 tl s).length = countOcc c0 tl s + 1 := by
  intro s
  generalize hn : s.length = n
  induction n using Nat.strong_induction_on generalizing s with
  | _ n ih =>
      rw [pysplit_unfold, countOcc_unfold]
      cases hfind : findSep c0 tl s with
      | none => simp
      | some p =>
          obtain ⟨pre, post⟩ := p
          have hlt := findSep_post_lt hfind
          subst hn
          show (pre :: pysplit c0 tl post).length = 1 + countOcc c0 tl post + 1
          rw [List.length_cons, ih post.length (by omega) post rfl]
          omega

/-- Model of Python's substring test `needle in hay`. -/
def containsSub (needle hay : List Char) : Bool :=
  match needle with
  | [] => true
  | c0 :: tl => (findSep c0 tl hay).isSome

/-- A one-character substring test is the same as character membership. -/
theorem containsSub_singleton (c : Char) :
    ∀ l : List Char, containsSub [c] l = l.contains c := by
  intro l
  induction l with
  | nil => rfl
  | cons a rest ih =>
      by_cases hac : c = a
      · subst hac
        simp [containsSub, findSep, List.isPrefixOf, List.contains_cons]
      · have h1 : (c == a) = false := by simp [hac]
        rw [List.contains_cons, h1, Bool.false_or, ← ih]
        simp only [containsSub, findSep, List.isPrefixOf]
        rw [if_neg (by simp [hac])]
        cases hf : findSep c [] rest with
        | none => simp
        | some p => cases p; simp

/-! ### Power Query parsing

Embeds `PBIXParser._parse_power_query_code` and
`PBIXParser._extract_query_steps` from `src/pbnj/core/parser.py`. -/

/-- One parsed query block: the dict with keys name / code / steps built by
`_parse_power_query_code`. -/
structure QueryInfo where
  name : String
  code : String
  steps : List String

/-- The loop body of `_extract_query_steps`: keep each stripped line that
contains the character sequence `=` and does not start with `//`. -/
def stepFilter : List (List Char) → List String
  | [] => []
  | ln :: rest =>
      let l := pystrip ln
      if containsSub ['='] l && !(List.isPrefixOf ['/', '/'] l) then
        String.mk l :: stepFilter rest
      else
        stepFilter rest

/-- `PBIXParser._extract_query_steps`: split on newlines, strip each line,
keep assignment-like lines. -/
def extract_query_steps (query_code : String) : List String :=
  stepFilter (pysplit '\n' [] query_code.data)

/-- The loop of `_parse_power_query_code` over `enumerate(sections[1:], 1)`:
build `Query_<i>` records, re-prepending the split-off delimiter `let`. -/
def buildQueries : Nat → List (List Char) → List QueryInfo
  | _, [] => []
  | i, sec :: rest =>
      { name := "Query_" ++ Nat.repr i,
        code := String.mk ('l' :: 'e' :: 't' :: sec),
        steps := extract_query_steps (String.mk ('l' :: 'e' :: 't' :: sec)) }
        :: buildQueries (i + 1) rest

/-- `PBIXParser._parse_power_query_code`: split raw M code on the literal
token `let`, drop the prologue before the first occurrence, and number the
reconstructed blocks from 1. -/
def parse_power_query_code (pq_code : String) : List QueryInfo :=
  let sections := pysplit 'l' ['e', 't'] pq_code.data
  buildQueries 1 (sections.drop 1)

theorem buildQueries_length : ∀ (k : Nat) (secs : List (List Char)),
    (buildQueries k secs).length = secs.length := by
  intro k secs
  induction secs generalizing k with
  | nil => rfl
  | cons sec rest ih => simp [buildQueries, ih]

theorem buildQueries_getElem? : ∀ (k : Nat) (secs : List (List Char)) (i : Nat),
    (buildQueries k secs)[i]? = secs[i]?.map (fun sec =>
      { name := "Query_" ++ Nat.repr (k + i),
        code := String.mk ('l' :: 'e' :: 't' :: sec),
        steps := extract_query_steps (String.mk ('l' :: 'e' :: 't' :: sec)) }) := by
  intro k secs
  induction secs generalizing k with
  | nil => intro i; simp [buildQueries]
  | cons sec rest ih =>
      intro i
      cases i with
      | zero => simp [buildQueries]
      | succ j =>
          simp only [buildQueries, List.getElem?_cons_succ, ih (k + 1) j]
          have : k + 1 + j = k + (j + 1) := by omega
          rw [this]

/-! ### The upstream pbixray collaborator

`PBIXParser` observes the upstream model through seven accessors
(`model.tables`, `model.schema`, `model.relationships`, `model.dax_measures`,
`model.dax_columns`, `model.power_query`, `model.metadata`), each of which may
raise. An accessor is embedded as an `Except String`, `.error msg` standing
for a raised exception with message `str(e) = msg`. DataFrame rows are
records of `Option`-valued cells: `row.get(key, default)` becomes
`Option.getD`. The schema DataFrame is only ever observed by filtering on
`TableName` and then iterating the slice (`iterrows`, which itself may
raise), so it is embedded as a function from table name to the slice's
iteration outcome. -/

/-- A row of `model.schema` restricted to the cells the code reads. -/
structure SchemaRow where
  ColumnName : Option String
  PandasDataType : Option String

/-- A row of `model.relationships` restricted to the cells the code reads. -/
structure RelRow where
  FromTableName : Option String
  FromColumnName : Option String
  ToTableName : Option String
  ToColumnName : Option String
  Cardinality : Option String
  CrossFilteringBehavior : Option String
  IsActive : Option Bool

/-- A row of `model.dax_measures` restricted to the cells the code reads. -/
structure MeasureRow where
  Name : Option String
  TableName : Option String
  Expression : Option String
  Description : Option String
  DisplayFolder : Option String

/-- A row of `model.dax_columns` restricted to the cells the code reads. -/
structure CalcColRow where
  ColumnName : Option String
  TableName : Option String
  Expression : Option String
  Description : Option String
  DataType : Option String
  DisplayFolder : Option String

/-- The observed shape of `model.metadata`: `None`, an object without a
`to_dict` method, or an object whose `to_dict()` yields a mapping. -/
inductive MetaVal where
  | absent
  | noToDict
  | withDict (kvs : List (String × J))

/-- The upstream pbixray model handle, as the tuple of its accessors. -/
structure PBIXModel where
  tables : Except String (List String)
  schema : Except String (String → Except String (List SchemaRow))
  relationships : Except String (List RelRow)
  dax_measures : Except String (List MeasureRow)
  dax_columns : Except String (List CalcColRow)
  power_query : Except String (Option String)
  metadata : Except String MetaVal

/-- The single-element error placeholder `[{"error": msg}]` uses this entry. -/
def errEntry (msg : String) : J :=
  J.obj [("error", J.str msg)]

/-- `PBIXParser._extract_table_columns_from_schema`: convert the slice's rows,
returning `[]` if iterating the slice raises. -/
def extract_table_columns_from_schema (df : Except String (List SchemaRow)) : J :=
  match df with
  | .ok rows =>
      J.arr (rows.map fun c => J.obj
        [("name", J.str (c.ColumnName.getD "")),
         ("data_type", J.str (c.PandasDataType.getD "")),
         ("is_key", J.bool false),
         ("is_nullable", J.bool true),
         ("description", J.str "")])
  | .error _ => J.arr []

/-- `PBIXParser._extract_tables`: one record per upstream table name, columns
taken from the filtered schema slice; any raise inside the facet becomes the
single-element error placeholder. -/
def extract_tables (model : PBIXModel) : J :=
  match model.tables with
  | .error e => J.arr [errEntry ("Failed to extract tables: " ++ e)]
  | .ok table_names =>
      match model.schema with
      | .error e => J.arr [errEntry ("Failed to extract tables: " ++ e)]
      | .ok schema_df =>
          J.arr (table_names.map fun table_name => J.obj
            [("name", J.str table_name),
             ("type", J.str "Table"),
             ("description", J.str ""),
             ("hidden", J.bool false),
             ("columns", extract_table_columns_from_schema (schema_df table_name))])

/-- `PBIXParser._extract_relationships`. -/
def extract_relationships (model : PBIXModel) : J :=
  match model.relationships with
  | .error e => J.arr [errEntry ("Failed to extract relationships: " ++ e)]
  | .ok rels =>
      J.arr (rels.map fun rel => J.obj
        [("from_table", J.str (rel.FromTableName.getD "")),
         ("from_column", J.str (rel.FromColumnName.getD "")),
         ("to_table", J.str (rel.ToTableName.getD "")),
         ("to_column", J.str (rel.ToColumnName.getD "")),
         ("cardinality", J.str (rel.Cardinality.getD "")),
         ("cross_filter_direction", J.str (rel.CrossFilteringBehavior.getD "")),
         ("is_active", J.bool (rel.IsActive.getD true))])

/-- `PBIXParser._extract_measures`. -/
def extract_measures (model : PBIXModel) : J :=
  match model.dax_measures with
  | .error e => J.arr [errEntry ("Failed to extract measures: " ++ e)]
  | .ok rows =>
      J.arr (rows.map fun measure => J.obj
        [("name", J.str (measure.Name.getD "")),
         ("table", J.str (measure.TableName.getD "")),
         ("expression", J.str (measure.Expression.getD "")),
         ("description", J.str (measure.Description.getD "")),
         ("display_folder", J.str (measure.DisplayFolder.getD "")),
         ("format_string", J.str "")])

/-- `PBIXParser._extract_calculated_columns`. -/
def extract_calculated_columns (model : PBIXModel) : J :=
  match model.dax_columns with
  | .error e => J.arr [errEntry ("Failed to extract calculated columns: " ++ e)]
  | .ok rows =>
      J.arr (rows.map fun column => J.obj
        [("name", J.str (column.ColumnName.getD "")),
         ("table", J.str (column.TableName.getD "")),
         ("expression", J.str (column.Expression.getD "")),
         ("description", J.str (column.Description.getD "")),
         ("data_type", J.str (column.DataType.getD "")),
         ("display_folder", J.str (column.DisplayFolder.getD ""))])

/-- The dict built for one query by `_parse_power_query_code`. -/
def queryToJ (q : QueryInfo) : J :=
  J.obj [("name", J.str q.name), ("code", J.str q.code),
         ("steps", J.arr (q.steps.map J.str))]

/-- `PBIXParser._extract_power_query`: a mapping-typed facet; `raw_code` is
present only when the upstream blob is not `None`, and is inserted after the
three list-valued keys. -/
def extract_power_query (model : PBIXModel) : J :=
  match model.power_query with
  | .error e => J.obj [("error", J.str ("Failed to extract Power Query: " ++ e))]
  | .ok none =>
      J.obj [("queries", J.arr []), ("parameters", J.arr []), ("functions", J.arr [])]
  | .ok (some pq_code) =>
      J.obj [("queries", J.arr ((parse_power_query_code pq_code).map queryToJ)),
             ("parameters", J.arr []),
             ("functions", J.arr []),
             ("raw_code", J.str pq_code)]

/-- `PBIXParser._extract_parameters`: the body touches no upstream accessor
and returns the empty list. -/
def extract_parameters (_ : PBIXModel) : J :=
  J.arr []

/-- `PBIXParser._extract_model_metadata`: a mapping-typed facet. -/
def extract_model_metadata (model : PBIXModel) : J :=
  match model.metadata with
  | .error e => J.obj [("error", J.str ("Failed to extract metadata: " ++ e))]
  | .ok .absent => J.obj []
  | .ok .noToDict => J.obj []
  | .ok (.withDict kvs) => J.obj kvs

/-- The document dict literal assembled in `PBIXParser.extract_metadata`,
keys in source order. -/
def assembleDoc (nm pth : String) (size_bytes : Int) (model : PBIXModel) : J :=
  J.obj
    [("file_info", J.obj
        [("name", J.str nm), ("path", J.str pth), ("size_bytes", J.num size_bytes)]),
     ("tables", extract_tables model),
     ("relationships", extract_relationships model),
     ("measures", extract_measures model),
     ("calculated_columns", extract_calculated_columns model),
     ("power_query", extract_power_query model),
     ("parameters", extract_parameters model),
     ("metadata", extract_model_metadata model)]

/-! ### The parser instance and its environment

`PBIXParser.__init__` stores the path and two `None` fields (`self.model`,
`self._metadata`); these become `ParserState`. What the outside world would
answer — the `PBIXRay(...)` constructor call and `pbix_path.stat().st_size` —
becomes `PBIXEnv`; either may fail, standing for a raised exception. -/

/-- The mutable fields of a `PBIXParser` instance, plus the two pure
observations of `pbix_path` used for `file_info` (`.name` and `str(...)`). -/
structure ParserState where
  nm : String
  pth : String
  model : Option PBIXModel
  cachedMetadata : Option J

/-- The outside world: the outcome of constructing the upstream handle and
of the filesystem stat. -/
structure PBIXEnv where
  loadModel : Except String PBIXModel
  statSize : Except String Int

/-- `PBIXParser._load_model`: construct the handle once and memoize it. -/
def load_model (env : PBIXEnv) (s : ParserState) : Except String (PBIXModel × ParserState) :=
  match s.model with
  | some m => .ok (m, s)
  | none =>
      match env.loadModel with
      | .ok m => .ok (m, { s with model := some m })
      | .error e => .error e

/-- `PBIXParser.extract_metadata`: return the cached document if present,
otherwise load the handle, stat the file, assemble the document and cache
it. Load and stat failures propagate as `.error`. -/
def extract_metadata (env : PBIXEnv) (s : ParserState) : Except String (J × ParserState) :=
  match s.cachedMetadata with
  | some d => .ok (d, s)
  | none =>
      match load_model env s with
      | .error e => .error e
      | .ok (m, s1) =>
          match env.statSize with
          | .error e => .error e
          | .ok sz =>
              let doc := assembleDoc s1.nm s1.pth sz m
              .ok (doc, { s1 with cachedMetadata := some doc })

/-! ### InsightEngine (`DocumentationGenerator._extract_insights` helpers)

The generator holds `self.metadata`, the document dict; the three insight
functions are pure in it. Dict and sequence observations used by the code:
`d.get(key, default)`, `key in d`, `len(x)`, `x[:5]`, `str(x)`. -/

/-- Python `d.get(key, default)` on a dict value (the code only applies it to
dicts). -/
def jGetD (md : J) (key : String) (dflt : J) : J :=
  match md with
  | .obj kvs => (List.lookup key kvs).getD dflt
  | _ => dflt

/-- Python `key in d` on a dict value. -/
def hasKey (md : J) (key : String) : Bool :=
  match md with
  | .obj kvs => kvs.any (fun kv => kv.1 == key)
  | _ => false

/-- Python `len(x)` for the sized values the code measures (lists and dicts;
the string case is Python's string length; other values never reach a `len`
call in the code). -/
def jLen : J → Nat
  | .arr xs => xs.length
  | .obj kvs => kvs.length
  | .str s => s.length
  | _ => 0

/-- Iterating a value the code always presents as a list. -/
def jList : J → List J
  | .arr xs => xs
  | _ => []

/-- Python `str(x)` for the scalar values that can appear here; `raw_code` is
always a string in documents this code receives (container reprs are not
modeled and unreachable). -/
def pyStr : J → String
  | .str s => s
  | .bool true => "True"
  | .bool false => "False"
  | .null => "None"
  | .num i => toString i
  | _ => ""

/-- `DocumentationGenerator._calculate_complexity_score`: the fixed-weight
linear count over the four facets. -/
def calculate_complexity_score (md : J) : Nat :=
  0 + jLen (jGetD md "tables" (J.arr [])) * 2
    + jLen (jGetD md "measures" (J.arr [])) * 3
    + jLen (jGetD md "relationships" (J.arr [])) * 1
    + jLen (jGetD (jGetD md "power_query" (J.obj [])) "queries" (J.arr [])) * 2

/-- `DocumentationGenerator._identify_data_sources`: scan `raw_code` (when
present) for three fixed substrings, appending a label per hit. -/
def identify_data_sources (md : J) : List String :=
  let pq := jGetD md "power_query" (J.obj [])
  if hasKey pq "raw_code" then
    let raw := (pyStr (jGetD pq "raw_code" J.null)).data
    let s1 : List String := [] ++ (if containsSub ("Excel").data raw then ["Excel"] else [])
    let s2 := s1 ++ (if containsSub ("SQL").data raw then ["SQL Server"] else [])
    let s3 := s2 ++ (if containsSub ("SharePoint").data raw then ["SharePoint"] else [])
    s3
  else []

/-- The loop of `_identify_key_metrics`: keep `measure["name"]` for each
entry that is a dict containing the key `name`. -/
def kmLoop : List J → List J
  | [] => []
  | m :: rest =>
      match m with
      | .obj kvs =>
          match List.lookup "name" kvs with
          | some v => v :: kmLoop rest
          | none => kmLoop rest
      | _ => kmLoop rest

/-- `DocumentationGenerator._identify_key_metrics`: the first five measures'
names, skipping entries that are not dicts with a `name` key. -/
def identify_key_metrics (md : J) : List J :=
  kmLoop ((jList (jGetD md "measures" (J.arr []))).take 5)

/-! ### The persisted snapshot codec

`PBIXParser.save_metadata` serializes the document with
`json.dump(metadata, f, indent=2, ensure_ascii=False, default=str)`; the
snapshot is read back with `json.load`
(`DocumentationGenerator.from_metadata_file`). `dumps` below reproduces that
serializer's exact output text for `J` values (`default=str` never fires:
every `J` value is JSON-serializable); `loads` models `json.load` on the
snapshot grammar (strings with escapes, integers, booleans, null, arrays,
objects, interleaved whitespace). -/

/-- Lowercase hexadecimal digit, as `%x` formatting uses. -/
def hexCh (n : Nat) : Char :=
  if n < 10 then Char.ofNat ('0'.toNat + n) else Char.ofNat ('a'.toNat + n - 10)

/-- Decimal digit character. -/
def digCh (n : Nat) : Char :=
  Char.ofNat ('0'.toNat + n)

/-- Decimal digits of a natural number, most significant first. -/
def natChars (n : Nat) : List Char :=
  if n < 10 then [digCh n] else natChars (n / 10) ++ [digCh (n % 10)]
termination_by n
decreasing_by
  rename_i h
  exact Nat.div_lt_self (by omega) (by omega)

/-- Python's `repr` of an int: optional minus sign, then decimal digits. -/
def intChars (i : Int) : List Char :=
  if i < 0 then '-' :: natChars i.natAbs else natChars i.toNat

/-- One character as the `ensure_ascii=False` JSON encoder writes it: the
seven short escapes, `\u00xx` for the remaining control characters, and
everything else verbatim. -/
def escCh (c : Char) : List Char :=
  if c = '\\' then ['\\', '\\']
  else if c = '"' then ['\\', '"']
  else if c = '\x08' then ['\\', 'b']
  else if c = '\x0c' then ['\\', 'f']
  else if c = '\n' then ['\\', 'n']
  else if c = '\r' then ['\\', 'r']
  else if c = '\t' then ['\\', 't']
  else if c.toNat < 32 then ['\\', 'u', '0', '0', hexCh (c.toNat / 16), hexCh (c.toNat % 16)]
  else [c]

/-- Escape every character of a string body. -/
def escList : List Char → List Char
  | [] => []
  | c :: cs => escCh c ++ escList cs

/-- A JSON string literal: quote, escaped body, quote. -/
def strChars (s : String) : List Char :=
  '"' :: (escList s.data ++ ['"'])

/-- The newline-plus-indentation separator `indent=2` puts before every item
nested at depth `d`. -/
def nlInd (d : Nat) : List Char :=
  '\n' :: List.replicate (2 * d) ' '

mutual
/-- `json.dump(..., indent=2, ensure_ascii=False)` output for a value whose
container items sit at nesting depth `d + 1`. -/
def jdump : Nat → J → List Char
  | _, .null => ['n', 'u', 'l', 'l']
  | _, .bool true => ['t', 'r', 'u', 'e']
  | _, .bool false => ['f', 'a', 'l', 's', 'e']
  | _, .num i => intChars i
  | _, .str s => strChars s
  | _, .arr [] => ['[', ']']
  | d, .arr (x :: xs) => '[' :: (dumpItems (d + 1) x xs ++ nlInd d ++ [']'])
  | _, .obj [] => ['{', '}']
  | d, .obj (kv :: kvs) => '{' :: (dumpMembers (d + 1) kv kvs ++ nlInd d ++ ['}'])
termination_by d j => sizeOf j
decreasing_by all_goals (simp; try omega)
/-- The comma-joined, newline-indented items of a non-empty array. -/
def dumpItems : Nat → J → List J → List Char
  | d, x, [] => nlInd d ++ jdump d x
  | d, x, y :: ys => nlInd d ++ jdump d x ++ ',' :: dumpItems d y ys
termination_by d x xs => 1 + sizeOf x + sizeOf xs
decreasing_by all_goals (simp; try omega)
/-- The comma-joined, newline-indented `"key": value` members of a non-empty
object. -/
def dumpMembers : Nat → (String × J) → List (String × J) → List Char
  | d, (k, v), [] => nlInd d ++ strChars k ++ ':' :: ' ' :: jdump d v
  | d, (k, v), m :: ms =>
      nlInd d ++ strChars k ++ ':' :: ' ' :: jdump d v ++ ',' :: dumpMembers d m ms
termination_by d kv ms => 1 + sizeOf kv + sizeOf ms
decreasing_by all_goals (simp; try omega)
end

/-- `PBIXParser.save_metadata`'s serialization of a document. -/
def dumps (j : J) : String :=
  String.mk (jdump 0 j)

/-- JSON insignificant whitespace. -/
def wsC (c : Char) : Bool :=
  c == ' ' || c == '\n' || c == '\r' || c == '\t'

/-- Skip insignificant whitespace before a token. -/
def skipB : List Char → List Char
  | [] => []
  | c :: r => if wsC c then skipB r else c :: r

/-- Value of one hexadecimal digit. -/
def hexVal (c : Char) : Option Nat :=
  if '0' ≤ c ∧ c ≤ '9' then some (c.toNat - '0'.toNat)
  else if 'a' ≤ c ∧ c ≤ 'f' then some (c.toNat - 'a'.toNat + 10)
  else if 'A' ≤ c ∧ c ≤ 'F' then some (c.toNat - 'A'.toNat + 10)
  else none

/-- The character named by a one-letter JSON escape. -/
def unesc (e : Char) : Option Char :=
  if e = '"' then some '"'
  else if e = '\\' then some '\\'
  else if e = '/' then some '/'
  else if e = 'b' then some '\x08'
  else if e = 'f' then some '\x0c'
  else if e = 'n' then some '\n'
  else if e = 'r' then some '\r'
  else if e = 't' then some '\t'
  else none

/-- Read what follows a backslash: a `uXXXX` escape or a one-letter escape. -/
def readEsc : List Char → Option (Char × List Char)
  | 'u' :: h1 :: h2 :: h3 :: h4 :: r =>
      match hexVal h1, hexVal h2, hexVal h3, hexVal h4 with
      | some a, some b, some c, some d =>
          some (Char.ofNat (((a * 16 + b) * 16 + c) * 16 + d), r)
      | _, _, _, _ => none
  | e :: r => (unesc e).map (fun c => (c, r))
  | [] => none

theorem readEsc_shrinks : ∀ {s : List Char} {e : Char} {r : List Char},
    readEsc s = some (e, r) → r.length < s.length := by
  intro s e r h
  rw [readEsc.eq_def] at h
  split at h
  · split at h
    · simp only [Option.some.injEq, Prod.mk.injEq] at h
      obtain ⟨-, rfl⟩ := h
      simp
      omega
    · cases h
  · simp only [Option.map_eq_some'] at h
    obtain ⟨x, -, hx⟩ := h
    rw [Prod.mk.injEq] at hx
    obtain ⟨-, rfl⟩ := hx
    simp
  · cases h

/-- Parse a JSON string body after its opening quote, undoing escapes. -/
def pStr (s : List Char) : Option (List Char × List Char) :=
  match s with
  | [] => none
  | c :: r =>
      if c = '"' then some ([], r)
      else if c = '\\' then
        match hr : readEsc r with
        | some (e, r2) => (pStr r2).map (fun p => (e :: p.1, p.2))
        | none => none
      else (pStr r).map (fun p => (c :: p.1, p.2))
termination_by s.length
decreasing_by
  · have := readEsc_shrinks hr
    simp
    omega
  · simp

/-- Decimal digit test. -/
def isDig (c : Char) : Bool :=
  '0' ≤ c && c ≤ '9'

/-- Value of a digit run. -/
def digitsVal (ds : List Char) : Nat :=
  ds.foldl (fun acc c => acc * 10 + (c.toNat - '0'.toNat)) 0

/-- Parse a non-empty unsigned digit run. -/
def pNum (s : List Char) : Option (Nat × List Char) :=
  let ds := s.takeWhile isDig
  if ds.isEmpty then none else some (digitsVal ds, s.dropWhile isDig)

mutual
/-- Parse one JSON value (snapshot grammar), with recursion fuel. -/
def pVal : Nat → List Char → Option (J × List Char)
  | 0, _ => none
  | fl + 1, s =>
      match skipB s with
      | 'n' :: 'u' :: 'l' :: 'l' :: r => some (.null, r)
      | 't' :: 'r' :: 'u' :: 'e' :: r => some (.bool true, r)
      | 'f' :: 'a' :: 'l' :: 's' :: 'e' :: r => some (.bool false, r)
      | '"' :: r => (pStr r).map (fun p => (.str (String.mk p.1), p.2))
      | '[' :: r =>
          match skipB r with
          | ']' :: r2 => some (.arr [], r2)
          | r2 => (pItems fl r2).map (fun p => (.arr p.1, p.2))
      | '{' :: r =>
          match skipB r with
          | '}' :: r2 => some (.obj [], r2)
          | r2 => (pMembers fl r2).map (fun p => (.obj p.1, p.2))
      | '-' :: r => (pNum r).map (fun p => (.num (-(p.1 : Int)), p.2))
      | c :: r => if isDig c then (pNum (c :: r)).map (fun p => (.num (p.1 : Int), p.2)) else none
      | [] => none
/-- Parse the one-or-more comma-separated elements of a non-empty array. -/
def pItems : Nat → List Char → Option (List J × List Char)
  | 0, _ => none
  | fl + 1, s =>
      match pVal fl s with
      | none => none
      | some (v, r) =>
          match skipB r with
          | ',' :: r2 =>
              match pItems fl r2 with
              | some (vs, r3) => some (v :: vs, r3)
              | none => none
          | ']' :: r2 => some ([v], r2)
          | _ => none
/-- Parse the one-or-more comma-separated members of a non-empty object. -/
def pMembers : Nat → List Char → Option (List (String × J) × List Char)
  | 0, _ => none
  | fl + 1, s =>
      match skipB s with
      | '"' :: r =>
          match pStr r with
          | none => none
          | some (kcs, r1) =>
              match skipB r1 with
              | ':' :: r2 =>
                  match pVal fl r2 with
                  | none => none
                  | some (v, r3) =>
                      match skipB r3 with
                      | ',' :: r4 =>
                          match pMembers fl r4 with
                          | some (ms, r5) => some ((String.mk kcs, v) :: ms, r5)
                          | none => none
                      | '}' :: r4 => some ([(String.mk kcs, v)], r4)
                      | _ => none
              | _ => none
      | _ => none
end

/-- `json.load` of a snapshot: parse one value, reject trailing garbage. -/
def loads (s : String) : Option J :=
  match pVal (s.data.length + 1) s.data with
  | some (j, r) => if skipB r = [] then some j else none
  | none => none

/-! ### Round-trip: numbers -/

theorem digCh_spec : ∀ k, k < 10 → isDig (digCh k) = true ∧ (digCh k).toNat - '0'.toNat = k := by
  decide

theorem natChars_unfold (n : Nat) :
    natChars n = (if n < 10 then [] else natChars (n / 10)) ++ [digCh (n % 10)] := by
  rw [natChars]
  by_cases h : n < 10
  · simp [h, Nat.mod_eq_of_lt h]
  · simp [h]

theorem natChars_ne_nil (n : Nat) : natChars n ≠ [] := by
  rw [natChars_unfold]; simp

theorem natChars_digits (n : Nat) : ∀ c ∈ natChars n, isDig c = true := by
  generalize hn : n = m
  induction m using Nat.strong_induction_on generalizing n with
  | _ m ih =>
      subst hn
      rw [natChars_unfold]
      intro c hc
      rw [List.mem_append] at hc
      rcases hc with hc | hc
      · by_cases h : n < 10
        · simp [h] at hc
        · exact ih (n / 10) (Nat.div_lt_self (by omega) (by omega)) (n / 10) rfl c
            (by simpa [h] using hc)
      · rw [List.mem_singleton] at hc
        subst hc
        exact (digCh_spec (n % 10) (Nat.mod_lt _ (by omega))).1

theorem digitsVal_natChars (n : Nat) : digitsVal (natChars n) = n := by
  generalize hn : n = m
  induction m using Nat.strong_induction_on generalizing n with
  | _ m ih =>
      subst hn
      rw [natChars_unfold]
      unfold digitsVal
      rw [List.foldl_append]
      by_cases h : n < 10
      · simp only [if_pos h, List.foldl_nil, List.foldl_cons]
        rw [(digCh_spec (n % 10) (Nat.mod_lt _ (by omega))).2]
        omega
      · simp only [if_neg h, List.foldl_cons, List.foldl_nil]
        have := ih (n / 10) (Nat.div_lt_self (by omega) (by omega)) (n / 10) rfl
        unfold digitsVal at this
        rw [this, (digCh_spec (n % 10) (Nat.mod_lt _ (by omega))).2]
        omega

/-- A remainder that cannot extend a digit run: empty or headed by a
non-digit. Every character that can follow a rendered number in a snapshot
(newline, comma, closing bracket or brace) qualifies. -/
def numStop : List Char → Bool
  | [] => true
  | c :: _ => !isDig c

theorem takeWhile_digits_append {ds : List Char} (hds : ∀ c ∈ ds, isDig c = true)
    {rest : List Char} (hrest : numStop rest = true) :
    (ds ++ rest).takeWhile isDig = ds ∧ (ds ++ rest).dropWhile isDig = rest := by
  induction ds with
  | nil =>
      cases rest with
      | nil => exact ⟨rfl, rfl⟩
      | cons c t =>
          simp only [numStop, Bool.not_eq_true'] at hrest
          simp [List.takeWhile, List.dropWhile, hrest]
  | cons c t ih =>
      have hc : isDig c = true := hds c (by simp)
      have := ih (fun x hx => hds x (by simp [hx]))
      simp [List.takeWhile, List.dropWhile, hc, this.1, this.2]

theorem pNum_natChars (n : Nat) {rest : List Char} (hrest : numStop rest = true) :
    pNum (natChars n ++ rest) = some (n, rest) := by
  obtain ⟨h1, h2⟩ := takeWhile_digits_append (natChars_digits n) hrest
  rw [pNum]
  simp only [h1, h2]
  rw [if_neg (by simp [natChars_ne_nil])]
  rw [digitsVal_natChars]

/-! ### Round-trip: character classes and whitespace -/

theorem isDig_ne_of (c x : Char) (hx : isDig x = false) (h : isDig c = true) : c ≠ x := by
  intro e; subst e; rw [h] at hx; cases hx

theorem isDig_wsC_false {c : Char} (h : isDig c = true) : wsC c = false := by
  simp only [wsC, Bool.or_eq_false_iff, beq_eq_false_iff_ne]
  exact ⟨⟨⟨isDig_ne_of c ' ' (by decide) h, isDig_ne_of c '\n' (by decide) h⟩,
    isDig_ne_of c '\r' (by decide) h⟩, isDig_ne_of c '\t' (by decide) h⟩

theorem skipB_cons_notWs {c : Char} (h : wsC c = false) (t : List Char) :
    skipB (c :: t) = c :: t := by
  simp [skipB, h]

theorem skipB_append_allWs {ws : List Char} (h : ∀ c ∈ ws, wsC c = true) (x : List Char) :
    skipB (ws ++ x) = skipB x := by
  induction ws with
  | nil => rfl
  | cons c t ih =>
      have hc := h c (by simp)
      simp only [List.cons_append, skipB, hc, if_pos]
      exact ih (fun a ha => h a (by simp [ha]))

theorem nlInd_allWs (d : Nat) : ∀ c ∈ nlInd d, wsC c = true := by
  intro c hc
  rw [nlInd, List.mem_cons] at hc
  rcases hc with hc | hc
  · subst hc; decide
  · rw [List.eq_of_mem_replicate hc]; decide

theorem skipB_nlInd (d : Nat) (x : List Char) : skipB (nlInd d ++ x) = skipB x :=
  skipB_append_allWs (nlInd_allWs d) x

/-! ### Round-trip: strings -/

theorem hexVal_hexCh : ∀ k, k < 16 → hexVal (hexCh k) = some k := by
  decide

theorem pStr_cons_eq (c : Char) (r : List Char) :
    pStr (c :: r) = if c = '"' then some ([], r)
      else if c = '\\' then
        (match readEsc r with
         | some (e, r2) => (pStr r2).map (fun p => (e :: p.1, p.2))
         | none => none)
      else (pStr r).map (fun p => (c :: p.1, p.2)) := by
  simp only [pStr]
  by_cases h1 : c = '"'
  · simp [h1]
  · rw [if_neg h1, if_neg h1]
    by_cases h2 : c = '\\'
    · rw [if_pos h2, if_pos h2]
      split
      · rename_i e r2 heq
        rw [heq]
      · rename_i heq
        rw [heq]
    · rw [if_neg h2, if_neg h2]

theorem pStr_quo (r : List Char) : pStr ('"' :: r) = some ([], r) := by
  rw [pStr_cons_eq]
  simp

theorem pStr_escCh (c : Char) (rest : List Char) :
    pStr (escCh c ++ rest) = (pStr rest).map (fun p => (c :: p.1, p.2)) := by
  by_cases h1 : c = '\\'
  · subst h1
    rw [show escCh '\\' = ['\\', '\\'] from rfl]
    simp only [List.cons_append, List.nil_append]
    rw [pStr_cons_eq, if_neg (by decide), if_pos rfl,
      show readEsc ('\\' :: rest) = some ('\\', rest) from rfl]
  by_cases h2 : c = '"'
  · subst h2
    rw [show escCh '"' = ['\\', '"'] from rfl]
    simp only [List.cons_append, List.nil_append]
    rw [pStr_cons_eq, if_neg (by decide), if_pos rfl,
      show readEsc ('"' :: rest) = some ('"', rest) from rfl]
  by_cases h3 : c = '\x08'
  · subst h3
    rw [show escCh '\x08' = ['\\', 'b'] from rfl]
    simp only [List.cons_append, List.nil_append]
    rw [pStr_cons_eq, if_neg (by decide), if_pos rfl,
      show readEsc ('b' :: rest) = some ('\x08', rest) from rfl]
  by_cases h4 : c = '\x0c'
  · subst h4
    rw [show escCh '\x0c' = ['\\', 'f'] from rfl]
    simp only [List.cons_append, List.nil_append]
    rw [pStr_cons_eq, if_neg (by decide), if_pos rfl,
      show readEsc ('f' :: rest) = some ('\x0c', rest) from rfl]
  by_cases h5 : c = '\n'
  · subst h5
    rw [show escCh '\n' = ['\\', 'n'] from rfl]
    simp only [List.cons_append, List.nil_append]
    rw [pStr_cons_eq, if_neg (by decide), if_pos rfl,
      show readEsc ('n' :: rest) = some ('\n', rest) from rfl]
  by_cases h6 : c = '\r'
  · subst h6
    rw [show escCh '\r' = ['\\', 'r'] from rfl]
    simp only [List.cons_append, List.nil_append]
    rw [pStr_cons_eq, if_neg (by decide), if_pos rfl,
      show readEsc ('r' :: rest) = some ('\r', rest) from rfl]
  by_cases h7 : c = '\t'
  · subst h7
    rw [show escCh '\t' = ['\\', 't'] from rfl]
    simp only [List.cons_append, List.nil_append]
    rw [pStr_cons_eq, if_neg (by decide), if_pos rfl,
      show readEsc ('t' :: rest) = some ('\t', rest) from rfl]
  by_cases h8 : c.toNat < 32
  · have hesc : escCh c = ['\\', 'u', '0', '0', hexCh (c.toNat / 16), hexCh (c.toNat % 16)] := by
      rw [escCh, if_neg h1, if_neg h2, if_neg h3, if_neg h4, if_neg h5, if_neg h6, if_neg h7,
        if_pos h8]
    have hhi : c.toNat / 16 < 16 := by omega
    have hlo : c.toNat % 16 < 16 := by omega
    rw [hesc]
    simp only [List.cons_append, List.nil_append]
    rw [pStr_cons_eq, if_neg (by decide), if_pos rfl]
    simp only [readEsc]
    rw [show hexVal '0' = some 0 from by decide, hexVal_hexCh _ hhi, hexVal_hexCh _ hlo]
    have harith : Char.ofNat (((0 * 16 + 0) * 16 + c.toNat / 16) * 16 + c.toNat % 16) = c := by
      have h0 : ((0 * 16 + 0) * 16 + c.toNat / 16) * 16 + c.toNat % 16 = c.toNat := by omega
      rw [h0, Char.ofNat_toNat]
    simp only [harith]
  · have hesc : escCh c = [c] := by
      rw [escCh, if_neg h1, if_neg h2, if_neg h3, if_neg h4, if_neg h5, if_neg h6, if_neg h7,
        if_neg h8]
    rw [hesc]
    simp only [List.cons_append, List.nil_append]
    rw [pStr_cons_eq, if_neg h2, if_neg h1]

theorem pStr_escList (s : List Char) : ∀ rest : List Char,
    pStr (escList s ++ '"' :: rest) = some (s, rest) := by
  induction s with
  | nil => intro rest; rw [show escList [] ++ '"' :: rest = '"' :: rest from rfl, pStr_quo]
  | cons c t ih =>
      intro rest
      rw [escList, List.append_assoc, pStr_escCh, ih rest]
      rfl

theorem pStr_strChars (s : String) (rest : List Char) :
    ∃ r, strChars s ++ rest = '"' :: r ∧ pStr r = some (s.data, rest) := by
  refine ⟨escList s.data ++ '"' :: rest, ?_, pStr_escList s.data rest⟩
  simp [strChars]

/-! ### Round-trip: rendered values and whitespace dispatch -/

/-- The text joined after an item: nothing for the last item, else a comma
and the remaining items. -/
def itemsSep (d : Nat) : List J → List Char
  | [] => []
  | y :: ys => ',' :: dumpItems d y ys

/-- The member analogue of `itemsSep`. -/
def membersSep (d : Nat) : List (String × J) → List Char
  | [] => []
  | m :: ms => ',' :: dumpMembers d m ms

theorem dumpItems_eq (d : Nat) (x : J) (xs : List J) :
    dumpItems d x xs = nlInd d ++ (jdump d x ++ itemsSep d xs) := by
  cases xs with
  | nil => simp [dumpItems, itemsSep]
  | cons y ys => simp [dumpItems, itemsSep]

theorem dumpMembers_eq (d : Nat) (k : String) (v : J) (ms : List (String × J)) :
    dumpMembers d (k, v) ms
      = nlInd d ++ (strChars k ++ ':' :: ' ' :: (jdump d v ++ membersSep d ms)) := by
  cases ms with
  | nil => simp [dumpMembers, membersSep]
  | cons m ms' => simp [dumpMembers, membersSep]

theorem natChars_cons (n : Nat) :
    ∃ c t, natChars n = c :: t ∧ isDig c = true := by
  cases h : natChars n with
  | nil => exact absurd h (natChars_ne_nil n)
  | cons c t =>
      exact ⟨c, t, rfl, natChars_digits n c (h ▸ List.mem_cons_self c t)⟩

theorem jdump_head (d : Nat) (j : J) :
    ∃ c t, jdump d j = c :: t ∧ wsC c = false ∧ c ≠ ']' ∧ c ≠ '}' := by
  cases j with
  | null => exact ⟨'n', ['u', 'l', 'l'], by simp [jdump], by decide, by decide, by decide⟩
  | bool b =>
      cases b with
      | true => exact ⟨'t', ['r', 'u', 'e'], by simp [jdump], by decide, by decide, by decide⟩
      | false =>
          exact ⟨'f', ['a', 'l', 's', 'e'], by simp [jdump], by decide, by decide, by decide⟩
  | str s =>
      exact ⟨'"', escList s.data ++ ['"'], by simp [jdump, strChars], by decide, by decide,
        by decide⟩
  | num i =>
      by_cases hi : i < 0
      · refine ⟨'-', natChars i.natAbs, ?_, by decide, by decide, by decide⟩
        simp [jdump, intChars, hi]
      · obtain ⟨c, t, hct, hc⟩ := natChars_cons i.toNat
        refine ⟨c, t, ?_, isDig_wsC_false hc, isDig_ne_of c ']' (by decide) hc,
          isDig_ne_of c '}' (by decide) hc⟩
        simp [jdump, intChars, hi, hct]
  | arr xs =>
      cases xs with
      | nil => exact ⟨'[', [']'], by simp [jdump], by decide, by decide, by decide⟩
      | cons x xs' =>
          exact ⟨'[', dumpItems (d + 1) x xs' ++ (nlInd d ++ [']']),
            by simp [jdump], by decide, by decide, by decide⟩
  | obj kvs =>
      cases kvs with
      | nil => exact ⟨'{', ['}'], by simp [jdump], by decide, by decide, by decide⟩
      | cons kv kvs' =>
          exact ⟨'{', dumpMembers (d + 1) kv kvs' ++ (nlInd d ++ ['}']),
            by simp [jdump], by decide, by decide, by decide⟩

theorem skipB_jdump (d : Nat) (j : J) (x : List Char) :
    skipB (jdump d j ++ x) = jdump d j ++ x := by
  obtain ⟨c, t, hct, hws, -, -⟩ := jdump_head d j
  rw [hct, List.cons_append, skipB_cons_notWs hws]

theorem pVal_ws {ws : List Char} (h : ∀ c ∈ ws, wsC c = true) (fl : Nat) (x : List Char) :
    pVal fl (ws ++ x) = pVal fl x := by
  cases fl with
  | zero => rfl
  | succ f =>
      simp only [pVal]
      rw [skipB_append_allWs h]

theorem pItems_ws {ws : List Char} (h : ∀ c ∈ ws, wsC c = true) (fl : Nat) (x : List Char) :
    pItems fl (ws ++ x) = pItems fl x := by
  cases fl with
  | zero => rfl
  | succ f =>
      simp only [pItems]
      rw [pVal_ws h]

theorem pMembers_ws {ws : List Char} (h : ∀ c ∈ ws, wsC c = true) (fl : Nat) (x : List Char) :
    pMembers fl (ws ++ x) = pMembers fl x := by
  cases fl with
  | zero => rfl
  | succ f =>
      simp only [pMembers]
      rw [skipB_append_allWs h]

theorem pVal_digit (f : Nat) (c : Char) (t : List Char) (h : isDig c = true) :
    pVal (f + 1) (c :: t) = (pNum (c :: t)).map (fun p => (J.num (p.1 : Int), p.2)) := by
  have hws : wsC c = false := isDig_wsC_false h
  have hn : c ≠ 'n' := isDig_ne_of c 'n' (by decide) h
  have ht : c ≠ 't' := isDig_ne_of c 't' (by decide) h
  have hf : c ≠ 'f' := isDig_ne_of c 'f' (by decide) h
  have hq : c ≠ '"' := isDig_ne_of c '"' (by decide) h
  have hbk : c ≠ '[' := isDig_ne_of c '[' (by decide) h
  have hbc : c ≠ '{' := isDig_ne_of c '{' (by decide) h
  have hm : c ≠ '-' := isDig_ne_of c '-' (by decide) h
  simp only [pVal, skipB_cons_notWs hws]
  simp [hn, ht, hf, hq, hbk, hbc, hm, h]

theorem nlInd_length (d : Nat) : (nlInd d).length = 2 * d + 1 := by
  simp [nlInd]

theorem numStop_nlInd (d : Nat) (x : List Char) : numStop (nlInd d ++ x) = true := by
  simp [nlInd, numStop]
  decide

theorem jdump_length_pos (d : Nat) (j : J) : 0 < (jdump d j).length := by
  obtain ⟨c, t, hct, -, -, -⟩ := jdump_head d j
  rw [hct]
  simp


theorem pVal_minus (f : Nat) (t : List Char) :
    pVal (f + 1) ('-' :: t) = (pNum t).map (fun p => (J.num (-(p.1 : Int)), p.2)) := by
  simp [pVal, skipB, wsC]

theorem pVal_quote (f : Nat) (t : List Char) :
    pVal (f + 1) ('"' :: t) = (pStr t).map (fun p => (J.str (String.mk p.1), p.2)) := by
  simp [pVal, skipB, wsC]

theorem pVal_arrOpen (f : Nat) (t : List Char) :
    pVal (f + 1) ('[' :: t)
      = (match skipB t with
         | ']' :: r2 => some (J.arr [], r2)
         | r2 => (pItems f r2).map (fun p => (J.arr p.1, p.2))) := by
  simp only [pVal]
  rw [skipB_cons_notWs (show wsC '[' = false from rfl)]
  rfl

theorem pVal_objOpen (f : Nat) (t : List Char) :
    pVal (f + 1) ('{' :: t)
      = (match skipB t with
         | '}' :: r2 => some (J.obj [], r2)
         | r2 => (pMembers f r2).map (fun p => (J.obj p.1, p.2))) := by
  simp only [pVal]
  rw [skipB_cons_notWs (show wsC '{' = false from rfl)]
  rfl

theorem strChars_append (k : String) (x : List Char) :
    strChars k ++ x = '"' :: (escList k.data ++ '"' :: x) := by
  simp [strChars]


theorem pMembers_quo (f : Nat) (r : List Char) :
    pMembers (f + 1) ('"' :: r)
      = (match pStr r with
         | none => none
         | some (kcs, r1) =>
             match skipB r1 with
             | ':' :: r2 =>
                 match pVal f r2 with
                 | none => none
                 | some (v, r3) =>
                     match skipB r3 with
                     | ',' :: r4 =>
                         match pMembers f r4 with
                         | some (ms, r5) => some ((String.mk kcs, v) :: ms, r5)
                         | none => none
                     | '}' :: r4 => some ([(String.mk kcs, v)], r4)
                     | _ => none
             | _ => none) := by
  simp only [pMembers]
  rw [skipB_cons_notWs (show wsC '"' = false from rfl)]
  rfl

theorem allWs_space : ∀ c ∈ [' '], wsC c = true := by
  intro c hc
  rw [List.mem_singleton] at hc
  subst hc
  rfl

mutual
theorem rt_val : ∀ (j : J) (d fl : Nat) (rest : List Char),
    (jdump d j).length < fl → numStop rest = true →
    pVal fl (jdump d j ++ rest) = some (j, rest)
  | .null, d, fl, rest, hfl, _ => by
      cases fl with
      | zero => exact absurd hfl (Nat.not_lt_zero _)
      | succ f => simp [jdump, pVal, skipB, wsC]
  | .bool b, d, fl, rest, hfl, _ => by
      cases fl with
      | zero => exact absurd hfl (Nat.not_lt_zero _)
      | succ f => cases b <;> simp [jdump, pVal, skipB, wsC]
  | .num i, d, fl, rest, hfl, hstop => by
      cases fl with
      | zero => exact absurd hfl (Nat.not_lt_zero _)
      | succ f =>
          by_cases hi : i < 0
          · have hj : jdump d (.num i) = '-' :: natChars i.natAbs := by
              simp [jdump, intChars, hi]
            rw [hj, List.cons_append, pVal_minus, pNum_natChars i.natAbs hstop]
            have hcast : -((i.natAbs : Nat) : Int) = i := by omega
            simp only [Option.map_some']
            rw [hcast]
          · have hj : jdump d (.num i) = natChars i.toNat := by
              simp [jdump, intChars, hi]
            obtain ⟨c, t, hct, hc⟩ := natChars_cons i.toNat
            rw [hj, hct, List.cons_append, pVal_digit f c (t ++ rest) hc,
              ← List.cons_append, ← hct, pNum_natChars i.toNat hstop]
            have hcast : ((i.toNat : Nat) : Int) = i := by omega
            simp only [Option.map_some']
            rw [hcast]
  | .str s, d, fl, rest, hfl, _ => by
      cases fl with
      | zero => exact absurd hfl (Nat.not_lt_zero _)
      | succ f =>
          have hj : jdump d (.str s) = '"' :: (escList s.data ++ ['"']) := by
            simp [jdump, strChars]
          rw [hj, List.cons_append, pVal_quote]
          simp only [List.append_assoc, List.singleton_append]
          rw [pStr_escList]
          rfl
  | .arr [], d, fl, rest, hfl, _ => by
      cases fl with
      | zero => exact absurd hfl (Nat.not_lt_zero _)
      | succ f =>
          have hj : jdump d (.arr []) = ['[', ']'] := by simp [jdump]
          rw [hj]
          simp only [List.cons_append, List.nil_append]
          rw [pVal_arrOpen, skipB_cons_notWs (show wsC ']' = false from rfl)]
          rfl
  | .arr (x :: xs), d, fl, rest, hfl, _ => by
      cases fl with
      | zero => exact absurd hfl (Nat.not_lt_zero _)
      | succ f =>
          have hj : jdump d (.arr (x :: xs))
              = '[' :: (dumpItems (d + 1) x xs ++ nlInd d ++ [']']) := by
            simp [jdump]
          have hlen1 := congrArg List.length hj
          have hlen2 := congrArg List.length (dumpItems_eq (d + 1) x xs)
          simp only [List.length_append, List.length_cons, nlInd_length,
            List.length_singleton] at hlen1 hlen2
          rw [hj, List.cons_append, pVal_arrOpen]
          rw [dumpItems_eq]
          simp only [List.append_assoc, List.singleton_append]
          rw [skipB_append_allWs (nlInd_allWs (d + 1)), skipB_jdump]
          obtain ⟨c, t, hct, hws, hbr, hbc⟩ := jdump_head (d + 1) x
          rw [hct, List.cons_append]
          split
          · rename_i r2 heq
            injection heq with h1 h2
            exact absurd h1 hbr
          · rw [← List.cons_append, ← hct,
              rt_items x xs (d + 1) f d rest (by omega)]
            rfl
  | .obj [], d, fl, rest, hfl, _ => by
      cases fl with
      | zero => exact absurd hfl (Nat.not_lt_zero _)
      | succ f =>
          have hj : jdump d (.obj []) = ['{', '}'] := by simp [jdump]
          rw [hj]
          simp only [List.cons_append, List.nil_append]
          rw [pVal_objOpen, skipB_cons_notWs (show wsC '}' = false from rfl)]
          rfl
  | .obj ((k, v) :: ms), d, fl, rest, hfl, _ => by
      cases fl with
      | zero => exact absurd hfl (Nat.not_lt_zero _)
      | succ f =>
          have hj : jdump d (.obj ((k, v) :: ms))
              = '{' :: (dumpMembers (d + 1) (k, v) ms ++ nlInd d ++ ['}']) := by
            simp [jdump]
          have hlen1 := congrArg List.length hj
          have hlen2 := congrArg List.length (dumpMembers_eq (d + 1) k v ms)
          simp only [List.length_append, List.length_cons, nlInd_length,
            List.length_singleton] at hlen1 hlen2
          rw [hj, List.cons_append, pVal_objOpen]
          rw [dumpMembers_eq]
          simp only [List.append_assoc, List.singleton_append, List.cons_append,
            List.nil_append]
          rw [skipB_append_allWs (nlInd_allWs (d + 1))]
          rw [strChars_append, skipB_cons_notWs (show wsC '"' = false from rfl)]
          rw [← strChars_append]
          split
          · rename_i r2 heq
            rw [strChars_append] at heq
            injection heq with h1 h2
            exact absurd h1 (by decide)
          · rw [rt_members k v ms (d + 1) f d rest (by omega)]
            rfl
termination_by j _ _ _ _ _ => sizeOf j

theorem rt_items : ∀ (x : J) (xs : List J) (d fl dOut : Nat) (rest : List Char),
    (jdump d x).length + (itemsSep d xs).length + 1 < fl →
    pItems fl (jdump d x ++ (itemsSep d xs ++ (nlInd dOut ++ ']' :: rest)))
      = some (x :: xs, rest)
  | x, [], d, fl, dOut, rest, hfl => by
      cases fl with
      | zero => exact absurd hfl (Nat.not_lt_zero _)
      | succ f =>
          rw [show itemsSep d ([] : List J) = [] from rfl, List.nil_append]
          simp only [pItems]
          rw [rt_val x d f (nlInd dOut ++ ']' :: rest) (by
            rw [show (itemsSep d ([] : List J)).length = 0 from rfl] at hfl
            omega) (numStop_nlInd dOut _)]
          simp only [skipB_append_allWs (nlInd_allWs dOut),
            skipB_cons_notWs (show wsC ']' = false from rfl)]
  | x, y :: ys, d, fl, dOut, rest, hfl => by
      cases fl with
      | zero => exact absurd hfl (Nat.not_lt_zero _)
      | succ f =>
          have hsep : itemsSep d (y :: ys) = ',' :: dumpItems d y ys := rfl
          have hlen2 := congrArg List.length (dumpItems_eq d y ys)
          simp only [List.length_append, nlInd_length] at hlen2
          have hlen3 := congrArg List.length hsep
          simp only [List.length_cons] at hlen3
          rw [hsep]
          simp only [pItems, List.cons_append]
          rw [rt_val x d f (',' :: (dumpItems d y ys ++ (nlInd dOut ++ ']' :: rest)))
            (by omega) (by rfl)]
          simp only [skipB_cons_notWs (show wsC ',' = false from rfl)]
          rw [dumpItems_eq]
          simp only [List.append_assoc]
          rw [pItems_ws (nlInd_allWs d)]
          rw [rt_items y ys d f dOut rest (by omega)]
termination_by x xs _ _ _ _ _ => 1 + sizeOf x + sizeOf xs

theorem rt_members : ∀ (k : String) (v : J) (ms : List (String × J)) (d fl dOut : Nat)
      (rest : List Char),
    (strChars k).length + (jdump d v).length + (membersSep d ms).length + 1 < fl →
    pMembers fl
        (strChars k ++ ':' :: ' ' :: (jdump d v ++ (membersSep d ms ++ (nlInd dOut ++ '}' :: rest))))
      = some ((k, v) :: ms, rest)
  | k, v, [], d, fl, dOut, rest, hfl => by
      cases fl with
      | zero => exact absurd hfl (Nat.not_lt_zero _)
      | succ f =>
          rw [show membersSep d ([] : List (String × J)) = [] from rfl, List.nil_append]
          rw [strChars_append, pMembers_quo, pStr_escList]
          simp only [skipB_cons_notWs (show wsC ':' = false from rfl)]
          rw [show (' ' :: (jdump d v ++ (nlInd dOut ++ '}' :: rest)))
              = [' '] ++ (jdump d v ++ (nlInd dOut ++ '}' :: rest)) from rfl]
          rw [pVal_ws allWs_space]
          rw [rt_val v d f (nlInd dOut ++ '}' :: rest) (by
            rw [show (membersSep d ([] : List (String × J))).length = 0 from rfl] at hfl
            omega) (numStop_nlInd dOut _)]
          simp only [skipB_append_allWs (nlInd_allWs dOut),
            skipB_cons_notWs (show wsC '}' = false from rfl)]
  | k, v, (k2, v2) :: ms2, d, fl, dOut, rest, hfl => by
      cases fl with
      | zero => exact absurd hfl (Nat.not_lt_zero _)
      | succ f =>
          have hsep : membersSep d ((k2, v2) :: ms2) = ',' :: dumpMembers d (k2, v2) ms2 := rfl
          have hlen2 := congrArg List.length (dumpMembers_eq d k2 v2 ms2)
          simp only [List.length_append, List.length_cons, nlInd_length] at hlen2
          have hlen3 := congrArg List.length hsep
          simp only [List.length_cons] at hlen3
          rw [hsep]
          simp only [List.cons_append]
          rw [strChars_append, pMembers_quo, pStr_escList]
          simp only [skipB_cons_notWs (show wsC ':' = false from rfl)]
          rw [show (' ' :: (jdump d v ++ (',' :: (dumpMembers d (k2, v2) ms2 ++ (nlInd dOut ++ '}' :: rest)))))
              = [' '] ++ (jdump d v ++ (',' :: (dumpMembers d (k2, v2) ms2 ++ (nlInd dOut ++ '}' :: rest)))) from rfl]
          rw [pVal_ws allWs_space]
          rw [rt_val v d f (',' :: (dumpMembers d (k2, v2) ms2 ++ (nlInd dOut ++ '}' :: rest)))
            (by omega) (by rfl)]
          simp only [skipB_cons_notWs (show wsC ',' = false from rfl)]
          rw [dumpMembers_eq]
          simp only [List.append_assoc, List.cons_append]
          rw [pMembers_ws (nlInd_allWs d)]
          rw [rt_members k2 v2 ms2 d f dOut rest (by omega)]
termination_by k v ms _ _ _ _ _ => 1 + sizeOf k + sizeOf v + sizeOf ms
end


/-- The codec round-trip: parsing a serialized snapshot recovers the value. -/
theorem loads_dumps (j : J) : loads (dumps j) = some j := by
  have h := rt_val j 0 ((jdump 0 j).length + 1) [] (by omega) rfl
  rw [List.append_nil] at h
  simp only [loads, dumps]
  rw [h]
  rfl


/-! ### Claim support definitions -/

/-- The data-source scan as the spec states it: three fixed substring checks
in order, each contributing its label at most once. -/
def dataSourcesFromSpec (md : J) : List String :=
  let pq := jGetD md "power_query" (J.obj [])
  if hasKey pq "raw_code" then
    let raw := (pyStr (jGetD pq "raw_code" J.null)).data
    (if containsSub ("Excel").data raw then ["Excel"] else [])
      ++ ((if containsSub ("SQL").data raw then ["SQL Server"] else [])
        ++ (if containsSub ("SharePoint").data raw then ["SharePoint"] else []))
  else []

/-- The name cell of a measure entry, when the entry is a dict with one. -/
def getNameField : J → Option J
  | .obj kvs => List.lookup "name" kvs
  | _ => none

theorem dsNodupAux : ∀ a b c : Bool,
    List.Nodup ((if a then ["Excel"] else [])
      ++ ((if b then ["SQL Server"] else [])
        ++ (if c then ["SharePoint"] else []))) := by
  decide

theorem kmLoop_filterMap : ∀ l : List J, kmLoop l = l.filterMap getNameField := by
  intro l
  induction l with
  | nil => rfl
  | cons m rest ih =>
      cases m with
      | obj kvs =>
          simp only [kmLoop, getNameField, List.filterMap_cons]
          cases List.lookup "name" kvs with
          | none => simp [ih]
          | some v => simp [ih]
      | str s => simp [kmLoop, getNameField, List.filterMap_cons, ih]
      | num i => simp [kmLoop, getNameField, List.filterMap_cons, ih]
      | bool b => simp [kmLoop, getNameField, List.filterMap_cons, ih]
      | null => simp [kmLoop, getNameField, List.filterMap_cons, ih]
      | arr xs => simp [kmLoop, getNameField, List.filterMap_cons, ih]

/-! ### The claims -/

/-- C5: the extracted steps are exactly the trimmed lines of the query text
that contain `=` and do not start with `//`, in original order. -/
theorem steps_are_assignment_lines (code : String) :
    extract_query_steps code
      = (((pysplit '\n' [] code.data).map pystrip).filter
          (fun l => l.contains '=' && !(List.isPrefixOf ['/', '/'] l))).map String.mk := by
  rw [extract_query_steps]
  generalize pysplit '\n' [] code.data = lns
  induction lns with
  | nil => rfl
  | cons ln rest ih =>
      simp only [stepFilter, List.map_cons, List.filter_cons, containsSub_singleton, ih]
      by_cases hp : '=' ∈ pystrip ln ∧ List.isPrefixOf ['/', '/'] (pystrip ln) = false
      · simp [hp]
      · simp [hp]

/-- C8: key_metrics is the name of each proper record among the first five
measure entries, and never exceeds five names. -/
theorem key_metrics_first_five (md : J) :
    identify_key_metrics md
      = ((jList (jGetD md "measures" (J.arr []))).take 5).filterMap getNameField
    ∧ (identify_key_metrics md).length ≤ 5 := by
  constructor
  · rw [identify_key_metrics, kmLoop_filterMap]
  · rw [identify_key_metrics, kmLoop_filterMap]
    have h1 := List.length_filterMap_le getNameField
      ((jList (jGetD md "measures" (J.arr []))).take 5)
    have h2 := List.length_take_le 5 (jList (jGetD md "measures" (J.arr [])))
    omega


/-- C7: the data-source scan equals its spec form, labels appear at most
once, text containing only `SharePoint` yields exactly that label, and
absent raw text yields the empty list. -/
theorem data_sources_fixed_order :
    (∀ md : J, identify_data_sources md = dataSourcesFromSpec md)
    ∧ (∀ md : J, (identify_data_sources md).Nodup)
    ∧ identify_data_sources (J.obj [("power_query",
        J.obj [("queries", J.arr []), ("parameters", J.arr []), ("functions", J.arr []),
               ("raw_code", J.str "SharePoint")])]) = ["SharePoint"]
    ∧ (∀ md : J, hasKey (jGetD md "power_query" (J.obj [])) "raw_code" = false →
        identify_data_sources md = []) := by
  have hspec : ∀ md : J, identify_data_sources md = dataSourcesFromSpec md := by
    intro md
    simp only [identify_data_sources, dataSourcesFromSpec]
    by_cases h : hasKey (jGetD md "power_query" (J.obj [])) "raw_code"
    · simp only [if_pos h]
      simp [List.append_assoc]
    · simp [h]
  refine ⟨hspec, ?_, by decide, ?_⟩
  · intro md
    rw [hspec]
    simp only [dataSourcesFromSpec]
    by_cases h : hasKey (jGetD md "power_query" (J.obj [])) "raw_code"
    · simp only [if_pos h]
      exact dsNodupAux _ _ _
    · simp [h]
  · intro md h
    simp [identify_data_sources, h]

/-- C4: the number of produced queries equals the number of `let`
occurrences; queries are named `Query_1`, `Query_2`, ... in encounter order;
each code field is the delimiter re-prepended to its originating segment. -/
theorem query_split_blocks (pq : String) :
    (parse_power_query_code pq).length = countOcc 'l' ['e', 't'] pq.data
    ∧ ∀ (i : Nat) (q : QueryInfo), (parse_power_query_code pq)[i]? = some q →
        q.name = "Query_" ++ Nat.repr (i + 1)
        ∧ ∃ sec, (pysplit 'l' ['e', 't'] pq.data)[i + 1]? = some sec
            ∧ q.code = String.mk ('l' :: 'e' :: 't' :: sec) := by
  constructor
  · simp only [parse_power_query_code]
    rw [buildQueries_length, List.length_drop, pysplit_length]
    omega
  · intro i q hq
    simp only [parse_power_query_code] at hq
    rw [buildQueries_getElem?] at hq
    cases hsec : ((pysplit 'l' ['e', 't'] pq.data).drop 1)[i]? with
    | none => rw [hsec] at hq; cases hq
    | some sec =>
        rw [hsec] at hq
        simp only [Option.map_some', Option.some.injEq] at hq
        subst hq
        refine ⟨by rw [Nat.add_comm], sec, ?_, rfl⟩
        rw [List.getElem?_drop] at hsec
        rw [Nat.add_comm 1 i] at hsec
        exact hsec


/-- A concrete measure row for example models. -/
def measureRowNamed (nm : String) : MeasureRow :=
  { Name := some nm, TableName := some "Sales", Expression := some "SUM(Sales[Amt])",
    Description := some "", DisplayFolder := some "" }

/-- A concrete relationship row for example models. -/
def relRowThirteen : RelRow :=
  { FromTableName := some "Sales",
    FromColumnName := some "DateKey",
    ToTableName := some "Dates",
    ToColumnName := some "DateKey",
    Cardinality := some "M:1",
    CrossFilteringBehavior := some "OneDirection",
    IsActive := some true }

/-- A concrete upstream model with 2 tables, 2 measures, 1 relationship and
one `let` block of Power Query text. -/
def modelThirteen : PBIXModel :=
  { tables := .ok ["Sales", "Dates"],
    schema := .ok (fun _ => .ok []),
    relationships := .ok [relRowThirteen],
    dax_measures := .ok [measureRowNamed "Total Sales", measureRowNamed "Total Cost"],
    dax_columns := .ok [],
    power_query := .ok (some "let\n  Source = Excel.Workbook(File.Contents())\nin\n  Source"),
    metadata := .ok .absent }

/-- C3: the complexity score of an assembled document is exactly
2·tables + 3·measures + 1·relationships + 2·queries, with no normalization
or cap; on 2 tables, 2 measures, 1 relationship and 1 query it is 13. -/
theorem complexity_score_linear :
    (∀ (nm pth : String) (sz : Int) (m : PBIXModel),
        calculate_complexity_score (assembleDoc nm pth sz m)
          = 2 * jLen (extract_tables m) + 3 * jLen (extract_measures m)
            + 1 * jLen (extract_relationships m)
            + 2 * jLen (jGetD (extract_power_query m) "queries" (J.arr [])))
    ∧ calculate_complexity_score (assembleDoc "f.pbix" "models/f.pbix" 1000 modelThirteen)
        = 13 := by
  constructor
  · intro nm pth sz m
    have h : calculate_complexity_score (assembleDoc nm pth sz m)
        = 0 + jLen (extract_tables m) * 2 + jLen (extract_measures m) * 3
          + jLen (extract_relationships m) * 1
          + jLen (jGetD (extract_power_query m) "queries" (J.arr [])) * 2 := rfl
    rw [h]
    ring
  · decide

/-- Key-wise agreement of two assembled documents: the value at `k` agrees
whenever the facet extractor that `k` selects agrees on the two models. -/
theorem jGetD_assembleDoc_ext (nm pth : String) (sz : Int) (m m' : PBIXModel) (k : String)
    (hT : k = "tables" → extract_tables m = extract_tables m')
    (hR : k = "relationships" → extract_relationships m = extract_relationships m')
    (hM : k = "measures" → extract_measures m = extract_measures m')
    (hC : k = "calculated_columns" →
      extract_calculated_columns m = extract_calculated_columns m')
    (hP : k = "power_query" → extract_power_query m = extract_power_query m')
    (hMM : k = "metadata" → extract_model_metadata m = extract_model_metadata m') :
    jGetD (assembleDoc nm pth sz m) k J.null
      = jGetD (assembleDoc nm pth sz m') k J.null := by
  simp only [assembleDoc, jGetD, List.lookup, extract_parameters]
  by_cases h1 : k == "file_info"
  · simp [h1]
  simp only [h1]
  by_cases h2 : k == "tables"
  · simp [h2, hT (beq_iff_eq.mp h2)]
  simp only [h2]
  by_cases h3 : k == "relationships"
  · simp [h3, hR (beq_iff_eq.mp h3)]
  simp only [h3]
  by_cases h4 : k == "measures"
  · simp [h4, hM (beq_iff_eq.mp h4)]
  simp only [h4]
  by_cases h5 : k == "calculated_columns"
  · simp [h5, hC (beq_iff_eq.mp h5)]
  simp only [h5]
  by_cases h6 : k == "power_query"
  · simp [h6, hP (beq_iff_eq.mp h6)]
  simp only [h6]
  by_cases h7 : k == "parameters"
  · simp [h7]
  simp only [h7]
  by_cases h8 : k == "metadata"
  · simp [h8, hMM (beq_iff_eq.mp h8)]
  simp only [h8]

/-- C1: for every upstream model, a raise while reading any one facet is not
propagated: that facet becomes the single-element `error` placeholder naming
the facet (the mapping-typed facets `power_query` and `metadata` become a
mapping with a top-level `error` key), while every other key of the
assembled document is exactly what it would be had that facet succeeded. -/
theorem facet_failure_isolated (nm pth : String) (sz : Int) (msg : String) :
    (∀ m : PBIXModel, m.tables = .error msg →
      jGetD (assembleDoc nm pth sz m) "tables" J.null
          = J.arr [errEntry ("Failed to extract tables: " ++ msg)]
      ∧ ∀ (rows : List String) (k : String), k ≠ "tables" →
          jGetD (assembleDoc nm pth sz m) k J.null
            = jGetD (assembleDoc nm pth sz { m with tables := .ok rows }) k J.null)
    ∧ (∀ m : PBIXModel, m.relationships = .error msg →
      jGetD (assembleDoc nm pth sz m) "relationships" J.null
          = J.arr [errEntry ("Failed to extract relationships: " ++ msg)]
      ∧ ∀ (rows : List RelRow) (k : String), k ≠ "relationships" →
          jGetD (assembleDoc nm pth sz m) k J.null
            = jGetD (assembleDoc nm pth sz { m with relationships := .ok rows }) k J.null)
    ∧ (∀ m : PBIXModel, m.dax_measures = .error msg →
      jGetD (assembleDoc nm pth sz m) "measures" J.null
          = J.arr [errEntry ("Failed to extract measures: " ++ msg)]
      ∧ ∀ (rows : List MeasureRow) (k : String), k ≠ "measures" →
          jGetD (assembleDoc nm pth sz m) k J.null
            = jGetD (assembleDoc nm pth sz { m with dax_measures := .ok rows }) k J.null)
    ∧ (∀ m : PBIXModel, m.dax_columns = .error msg →
      jGetD (assembleDoc nm pth sz m) "calculated_columns" J.null
          = J.arr [errEntry ("Failed to extract calculated columns: " ++ msg)]
      ∧ ∀ (rows : List CalcColRow) (k : String), k ≠ "calculated_columns" →
          jGetD (assembleDoc nm pth sz m) k J.null
            = jGetD (assembleDoc nm pth sz { m with dax_columns := .ok rows }) k J.null)
    ∧ (∀ m : PBIXModel, m.power_query = .error msg →
      jGetD (assembleDoc nm pth sz m) "power_query" J.null
          = J.obj [("error", J.str ("Failed to extract Power Query: " ++ msg))]
      ∧ ∀ (pq : Option String) (k : String), k ≠ "power_query" →
          jGetD (assembleDoc nm pth sz m) k J.null
            = jGetD (assembleDoc nm pth sz { m with power_query := .ok pq }) k J.null)
    ∧ (∀ m : PBIXModel, m.metadata = .error msg →
      jGetD (assembleDoc nm pth sz m) "metadata" J.null
          = J.obj [("error", J.str ("Failed to extract metadata: " ++ msg))]
      ∧ ∀ (mv : MetaVal) (k : String), k ≠ "metadata" →
          jGetD (assembleDoc nm pth sz m) k J.null
            = jGetD (assembleDoc nm pth sz { m with metadata := .ok mv }) k J.null) := by
  refine ⟨fun m hm => ⟨?_, fun rows k hk => ?_⟩, fun m hm => ⟨?_, fun rows k hk => ?_⟩,
    fun m hm => ⟨?_, fun rows k hk => ?_⟩, fun m hm => ⟨?_, fun rows k hk => ?_⟩,
    fun m hm => ⟨?_, fun pq k hk => ?_⟩, fun m hm => ⟨?_, fun mv k hk => ?_⟩⟩
  · have h : jGetD (assembleDoc nm pth sz m) "tables" J.null = extract_tables m := rfl
    rw [h]
    simp only [extract_tables, hm]
  · exact jGetD_assembleDoc_ext nm pth sz m _ k
      (fun he => absurd he hk) (fun _ => rfl) (fun _ => rfl) (fun _ => rfl)
      (fun _ => rfl) (fun _ => rfl)
  · have h : jGetD (assembleDoc nm pth sz m) "relationships" J.null
        = extract_relationships m := rfl
    rw [h]
    simp only [extract_relationships, hm]
  · exact jGetD_assembleDoc_ext nm pth sz m _ k
      (fun _ => rfl) (fun he => absurd he hk) (fun _ => rfl) (fun _ => rfl)
      (fun _ => rfl) (fun _ => rfl)
  · have h : jGetD (assembleDoc nm pth sz m) "measures" J.null = extract_measures m := rfl
    rw [h]
    simp only [extract_measures, hm]
  · exact jGetD_assembleDoc_ext nm pth sz m _ k
      (fun _ => rfl) (fun _ => rfl) (fun he => absurd he hk) (fun _ => rfl)
      (fun _ => rfl) (fun _ => rfl)
  · have h : jGetD (assembleDoc nm pth sz m) "calculated_columns" J.null
        = extract_calculated_columns m := rfl
    rw [h]
    simp only [extract_calculated_columns, hm]
  · exact jGetD_assembleDoc_ext nm pth sz m _ k
      (fun _ => rfl) (fun _ => rfl) (fun _ => rfl) (fun he => absurd he hk)
      (fun _ => rfl) (fun _ => rfl)
  · have h : jGetD (assembleDoc nm pth sz m) "power_query" J.null
        = extract_power_query m := rfl
    rw [h]
    simp only [extract_power_query, hm]
  · exact jGetD_assembleDoc_ext nm pth sz m _ k
      (fun _ => rfl) (fun _ => rfl) (fun _ => rfl) (fun _ => rfl)
      (fun he => absurd he hk) (fun _ => rfl)
  · have h : jGetD (assembleDoc nm pth sz m) "metadata" J.null
        = extract_model_metadata m := rfl
    rw [h]
    simp only [extract_model_metadata, hm]
  · exact jGetD_assembleDoc_ext nm pth sz m _ k
      (fun _ => rfl) (fun _ => rfl) (fun _ => rfl) (fun _ => rfl)
      (fun _ => rfl) (fun he => absurd he hk)

/-- C2: the first extraction on a fresh instance loads the handle once,
stats once, assembles once and caches; every later call on the resulting
state returns the identical document and state under any environment, so
neither the upstream collaborator nor the filesystem is consulted again. -/
theorem extraction_cached_once :
    (∀ (env : PBIXEnv) (nm pth : String) (m : PBIXModel) (sz : Int),
        env.loadModel = .ok m → env.statSize = .ok sz →
        extract_metadata env ⟨nm, pth, none, none⟩
          = .ok (assembleDoc nm pth sz m,
              ⟨nm, pth, some m, some (assembleDoc nm pth sz m)⟩))
    ∧ (∀ (env : PBIXEnv) (s : ParserState) (d : J) (s' : ParserState),
        extract_metadata env s = .ok (d, s') →
        ∀ env' : PBIXEnv, extract_metadata env' s' = .ok (d, s')) := by
  constructor
  · intro env nm pth m sz hload hstat
    simp [extract_metadata, load_model, hload, hstat]
  · intro env s d s' h env'
    simp only [extract_metadata] at h
    cases hc : s.cachedMetadata with
    | some d0 =>
        rw [hc] at h
        simp only [Except.ok.injEq, Prod.mk.injEq] at h
        obtain ⟨rfl, rfl⟩ := h
        simp only [extract_metadata, hc]
    | none =>
        rw [hc] at h
        cases hl : load_model env s with
        | error e => rw [hl] at h; cases h
        | ok p =>
            obtain ⟨m, s1⟩ := p
            rw [hl] at h
            cases hs : env.statSize with
            | error e => rw [hs] at h; cases h
            | ok sz =>
                rw [hs] at h
                simp only [Except.ok.injEq, Prod.mk.injEq] at h
                obtain ⟨rfl, rfl⟩ := h
                rfl

/-- C6: if constructing the upstream model handle raises, extraction on a
fresh instance propagates that very error to the caller. -/
theorem load_failure_propagates (env : PBIXEnv) (nm pth : String) (msg : String)
    (h : env.loadModel = .error msg) :
    extract_metadata env ⟨nm, pth, none, none⟩ = .error msg := by
  simp [extract_metadata, load_model, h]

/-- C10: when iterating one table's schema slice raises, that table is still
emitted with an empty columns list, and no `error` record appears anywhere
in the tables facet — every entry keeps the fixed five-key shape. -/
theorem column_failure_silenced (m : PBIXModel) (names : List String)
    (sch : String → Except String (List SchemaRow))
    (hT : m.tables = .ok names) (hS : m.schema = .ok sch)
    (i : Nat) (t : String) (hi : names[i]? = some t)
    (e : String) (he : sch t = .error e) :
    ∃ xs, extract_tables m = J.arr xs
      ∧ xs[i]? = some (J.obj [("name", J.str t), ("type", J.str "Table"),
          ("description", J.str ""), ("hidden", J.bool false), ("columns", J.arr [])])
      ∧ ∀ entry ∈ xs, ∃ nm2 cols, entry = J.obj [("name", J.str nm2),
          ("type", J.str "Table"), ("description", J.str ""), ("hidden", J.bool false),
          ("columns", cols)] := by
  refine ⟨names.map (fun table_name => J.obj [("name", J.str table_name),
    ("type", J.str "Table"), ("description", J.str ""), ("hidden", J.bool false),
    ("columns", extract_table_columns_from_schema (sch table_name))]), ?_, ?_, ?_⟩
  · simp only [extract_tables, hT, hS]
  · rw [List.getElem?_map, hi]
    simp only [Option.map_some', Option.some.injEq]
    simp [extract_table_columns_from_schema, he]
  · intro entry hent
    rw [List.mem_map] at hent
    obtain ⟨nm2, -, rfl⟩ := hent
    exact ⟨nm2, extract_table_columns_from_schema (sch nm2), rfl⟩


/-- C9: serializing an assembled metadata document to the snapshot text with
the `json.dump(indent=2, ensure_ascii=False)` format and reloading it with
`json.load` reproduces the document exactly: key order, sequence order and
every string byte-for-byte, the filename included. -/
theorem snapshot_roundtrip (nm pth : String) (sz : Int) (m : PBIXModel) :
    loads (dumps (assembleDoc nm pth sz m)) = some (assembleDoc nm pth sz m) :=
  loads_dumps (assembleDoc nm pth sz m)

/-! ### Witness instantiations -/

/-- An upstream model whose measures accessor raises. -/
def modelMeasuresFail : PBIXModel :=
  { modelThirteen with dax_measures := .error "boom" }

theorem facet_failure_isolated_witness :
    jGetD (assembleDoc "f.pbix" "models/f.pbix" 10 modelMeasuresFail) "measures" J.null
        = J.arr [errEntry ("Failed to extract measures: " ++ "boom")]
    ∧ jGetD (assembleDoc "f.pbix" "models/f.pbix" 10 modelMeasuresFail) "tables" J.null
        = jGetD (assembleDoc "f.pbix" "models/f.pbix" 10
            { modelMeasuresFail with dax_measures := .ok [] }) "tables" J.null := by
  have h := (facet_failure_isolated "f.pbix" "models/f.pbix" 10 "boom").2.2.1
    modelMeasuresFail rfl
  exact ⟨h.1, h.2 [] "tables" (by decide)⟩

/-- An environment whose load and stat both succeed. -/
def envOk : PBIXEnv :=
  { loadModel := .ok modelThirteen, statSize := .ok 1000 }

/-- An environment in which every outside access fails. -/
def envDead : PBIXEnv :=
  { loadModel := .error "gone", statSize := .error "gone" }

theorem extraction_cached_once_witness :
    extract_metadata envOk ⟨"f.pbix", "models/f.pbix", none, none⟩
      = .ok (assembleDoc "f.pbix" "models/f.pbix" 1000 modelThirteen,
          ⟨"f.pbix", "models/f.pbix", some modelThirteen,
            some (assembleDoc "f.pbix" "models/f.pbix" 1000 modelThirteen)⟩)
    ∧ extract_metadata envDead
        ⟨"f.pbix", "models/f.pbix", some modelThirteen,
          some (assembleDoc "f.pbix" "models/f.pbix" 1000 modelThirteen)⟩
      = .ok (assembleDoc "f.pbix" "models/f.pbix" 1000 modelThirteen,
          ⟨"f.pbix", "models/f.pbix", some modelThirteen,
            some (assembleDoc "f.pbix" "models/f.pbix" 1000 modelThirteen)⟩) := by
  have h1 := extraction_cached_once.1 envOk "f.pbix" "models/f.pbix" modelThirteen 1000 rfl rfl
  exact ⟨h1, extraction_cached_once.2 envOk _ _ _ h1 envDead⟩

/-- Raw query text holding exactly two `let`-opened blocks. -/
def pqTwoLets : String :=
  "let\n  A = 1\nin A\nshared B = let\n  C = 2\nin C"

theorem query_split_blocks_witness :
    (parse_power_query_code pqTwoLets).length = countOcc 'l' ['e', 't'] pqTwoLets.data
    ∧ ∃ q, (parse_power_query_code pqTwoLets)[0]? = some q
        ∧ q.name = "Query_" ++ Nat.repr (0 + 1)
        ∧ ∃ sec, (pysplit 'l' ['e', 't'] pqTwoLets.data)[0 + 1]? = some sec
            ∧ q.code = String.mk ('l' :: 'e' :: 't' :: sec) := by
  refine ⟨(query_split_blocks pqTwoLets).1, ?_⟩
  have hlen : (parse_power_query_code pqTwoLets).length = 2 := by decide
  cases hq : (parse_power_query_code pqTwoLets)[0]? with
  | none =>
      rw [List.getElem?_eq_none_iff] at hq
      omega
  | some q =>
      exact ⟨q, rfl, (query_split_blocks pqTwoLets).2 0 q hq⟩

theorem load_failure_propagates_witness :
    extract_metadata { loadModel := .error "not a pbix", statSize := .ok 5 }
        ⟨"f.pbix", "models/f.pbix", none, none⟩
      = .error "not a pbix" :=
  load_failure_propagates { loadModel := .error "not a pbix", statSize := .ok 5 }
    "f.pbix" "models/f.pbix" "not a pbix" rfl

theorem data_sources_fixed_order_witness :
    identify_data_sources (J.obj [("measures", J.arr [])]) = [] :=
  data_sources_fixed_order.2.2.2 (J.obj [("measures", J.arr [])]) (by decide)

/-- An upstream model whose schema slice for `Sales` raises on iteration. -/
def modelColsFail : PBIXModel :=
  { modelThirteen with
      schema := .ok (fun nm => if nm = "Sales" then .error "bad df" else .ok []) }

theorem column_failure_silenced_witness :
    ∃ xs, extract_tables modelColsFail = J.arr xs
      ∧ xs[0]? = some (J.obj [("name", J.str "Sales"), ("type", J.str "Table"),
          ("description", J.str ""), ("hidden", J.bool false), ("columns", J.arr [])]) := by
  obtain ⟨xs, h1, h2, h3⟩ := column_failure_silenced modelColsFail ["Sales", "Dates"]
    (fun nm => if nm = "Sales" then .error "bad df" else .ok []) rfl rfl 0 "Sales" rfl
    "bad df" (by simp)
  exact ⟨xs, h1, h2⟩

end Pbnj
